import Mathlib

/-
Verification of the template-compilation engine of bot-dashboard.py.

The engine's compiler (`compile_template`) scans the template source line by
line, maintains a block-nesting stack, and emits the body of a host function
`_render`.  We embed the compiler faithfully (same per-line scanning, the same
stack checks, the same error messages and their order) but emit a structured
instruction list instead of host source text: the indentation bookkeeping of
the source encodes exactly this tree.  The renderer models the execution of
the generated host function: a single function-local binding environment over
the caller-supplied globals (the `wrapper` passes the render scope as the
globals of an `exec`), name resolution locals-first, Python truthiness and
`str` conversion, and Python `for` statements that bind the loop variable as
an ordinary function local.  Expression sources are kept verbatim; the host
expression evaluator is modelled on the fragment exercised by the embedded
templates: bare-name lookup.
-/

namespace BotDash

/-- Values of the render scope: the fragment of host values the dashboard
templates exercise (strings, integers, booleans and lists). -/
inductive Value where
  | str (s : String)
  | int (n : Int)
  | bool (b : Bool)
  | list (elems : List Value)

/-- A render scope: named bindings, as the `wrapper` receives them. -/
abbrev Env := List (String × Value)

/-- Instructions of the compiled program, the structured counterpart of the
host source lines `compile_template` emits. -/
inductive Instr where
  | lit (s : String)
  | expr (src : String)
  | raw (stmt : String)
  | ifI (branches : List (Option String × List Instr))
  | forI (hdr : String) (body : List Instr)

/-- Errors of compilation: `templateErr` is the `ValueError` carrying the
1-based line number, `unclosedErr` the end-of-input `ValueError` that names
only the unclosed block kind, and `indexErr` the host `IndexError` raised by
`stack[-1]` or `stack.pop()` on an empty stack. -/
inductive CompileError where
  | templateErr (lineNo : Nat) (msg : String)
  | unclosedErr (kind : String)
  | indexErr

/-- Python's `str.strip` on the characters of a line (ASCII whitespace). -/
def isPySpace (c : Char) : Bool :=
  c = ' ' || c = '\t' || c = '\n' || c = '\r' || c = '\x0b' || c = '\x0c'

def stripChars (l : List Char) : List Char :=
  ((l.dropWhile isPySpace).reverse.dropWhile isPySpace).reverse

def pyStrip (s : String) : String :=
  String.mk (stripChars s.data)

/-- `pycmd.partition(" ")[0]`: the text before the first space. -/
def firstToken (s : String) : String :=
  String.mk (s.data.takeWhile (fun c => c ≠ ' '))

/-- The text after the first space of `s` (empty when there is none),
matching `partition(" ")[2]`. -/
def afterToken (s : String) : String :=
  String.mk (s.data.drop ((s.data.takeWhile (fun c => c ≠ ' ')).length + 1))

/-- `line.startswith("$")`. -/
def startsDollar (s : String) : Bool :=
  match s.data with
  | '$' :: _ => true
  | _ => false

/-- Scanner mode for a text line: outside or inside a `\x7b\x7b ... \x7d\x7d`
expression span. -/
inductive SMode where
  | text
  | exprMode

/-- The text-line scanner of `compile_template` (its find-based loop over
`\x7b\x7b` / `\x7d\x7d`, re-expressed character by character): literal text up
to a span start is emitted as a literal, the span's interior as an expression,
and the line's tail as a literal with the newline appended; an unterminated
span start fails naming the line. -/
def scanChars (lineNo : Nat) : SMode → List Char → List Instr → List Char →
    Except CompileError (List Instr)
  | .text, acc, emitted, [] =>
    .ok (emitted ++ [Instr.lit (String.mk acc ++ "\n")])
  | .text, acc, emitted, [c] =>
    scanChars lineNo .text (acc ++ [c]) emitted []
  | .text, acc, emitted, c1 :: c2 :: rest =>
    if c1 = '\x7b' ∧ c2 = '\x7b' then
      scanChars lineNo .exprMode []
        (emitted ++ if acc = [] then [] else [Instr.lit (String.mk acc)]) rest
    else
      scanChars lineNo .text (acc ++ [c1]) emitted (c2 :: rest)
  | .exprMode, _, _, [] =>
    .error (.templateErr lineNo "Couldn't find matching \x7d")
  | .exprMode, acc, emitted, [c] =>
    scanChars lineNo .exprMode (acc ++ [c]) emitted []
  | .exprMode, acc, emitted, c1 :: c2 :: rest =>
    if c1 = '\x7d' ∧ c2 = '\x7d' then
      scanChars lineNo .text [] (emitted ++ [Instr.expr (String.mk acc)]) rest
    else
      scanChars lineNo .exprMode (acc ++ [c1]) emitted (c2 :: rest)

/-- An open block during compilation: the entry of the compiler's stack
together with the partial instruction data the source keeps implicitly in the
emitted, indentation-structured host lines. -/
inductive Frame where
  | ifFrame (done : List (Option String × List Instr))
      (cond : Option String) (saved : List Instr)
  | forFrame (hdr : String) (saved : List Instr)

/-- The block kind a frame contributes to the compiler's stack. -/
def frameKind : Frame → String
  | .ifFrame _ _ _ => "if"
  | .forFrame _ _ => "for"

/-- Compiler state: the instructions of the innermost open block, and the
stack of open blocks. -/
structure CState where
  cur : List Instr
  stack : List Frame

/-- Processing of one directive line (the `line.startswith("$")` arm of
`compile_template`), given the stripped directive body `pycmd`. -/
def compileDirective (st : CState) (lineNo : Nat) (pycmd : String) :
    Except CompileError CState :=
  let keyword := firstToken pycmd
  if keyword = "if" then
    .ok ⟨[], Frame.ifFrame [] (some (afterToken pycmd)) st.cur :: st.stack⟩
  else if keyword = "for" then
    .ok ⟨[], Frame.forFrame pycmd st.cur :: st.stack⟩
  else if keyword = "elif" ∨ keyword = "else" then
    match st.stack with
    | [] => .error .indexErr
    | Frame.forFrame _ _ :: _ =>
      .error (.templateErr lineNo ("Incorrectly nested '" ++ keyword ++ "'"))
    | Frame.ifFrame done cond saved :: fs =>
      .ok ⟨[], Frame.ifFrame (done ++ [(cond, st.cur)])
        (if keyword = "elif" then some (afterToken pycmd) else none) saved :: fs⟩
  else if keyword = "endif" ∨ keyword = "endfor" then
    match st.stack with
    | [] => .error .indexErr
    | f :: fs =>
      let expected := frameKind f
      if expected ≠ keyword.drop 3 then
        .error (.templateErr lineNo
          ("Expected end" ++ expected ++ ", got " ++ pycmd))
      else if pycmd ≠ keyword then
        .error (.templateErr lineNo ("Unexpected text after " ++ keyword))
      else
        match f with
        | Frame.ifFrame done cond saved =>
          .ok ⟨saved ++ [Instr.ifI (done ++ [(cond, st.cur)])], fs⟩
        | Frame.forFrame hdr saved =>
          .ok ⟨saved ++ [Instr.forI hdr st.cur], fs⟩
  else
    .ok ⟨st.cur ++ [Instr.raw pycmd], st.stack⟩

/-- Processing of one source line of the template. -/
def compileLine (st : CState) (lineNo : Nat) (line : String) :
    Except CompileError CState :=
  if startsDollar line then
    compileDirective st lineNo (pyStrip (String.mk (line.data.drop 1)))
  else
    match scanChars lineNo .text [] [] line.data with
    | .error e => .error e
    | .ok instrs => .ok ⟨st.cur ++ instrs, st.stack⟩

/-- The per-line loop of `compile_template` with 1-based line numbering; at
end of input a non-empty stack fails with `Unclosed '...'` naming the top of
the stack. -/
def compileGo : CState → Nat → List String → Except CompileError (List Instr)
  | st, _, [] =>
    match st.stack with
    | [] => .ok st.cur
    | f :: _ => .error (.unclosedErr (frameKind f))
  | st, n, l :: ls =>
    match compileLine st n l with
    | .error e => .error e
    | .ok st' => compileGo st' (n + 1) ls

/-- `compile_template`, on the template's list of source lines. -/
def compile_template (lines : List String) : Except CompileError (List Instr) :=
  compileGo ⟨[], []⟩ 1 lines

end BotDash

namespace BotDash

/-- Render-time errors: the host exceptions the generated code can raise in
the modelled fragment, plus fuel exhaustion of the bounded interpreter. -/
inductive RErr where
  | nameErr (n : String)
  | notIterable
  | badForHeader
  | unsupportedStmt
  | outOfFuel

/-- Update of a function-local binding (Python dict semantics: replace the
existing entry or add a new one). -/
def setVar : Env → String → Value → Env
  | [], x, v => [(x, v)]
  | (k, w) :: rest, x, v =>
    if k = x then (x, v) :: rest else (k, w) :: setVar rest x v

def lookupEnv : Env → String → Option Value
  | [], _ => none
  | (k, v) :: rest, n => if k = n then some v else lookupEnv rest n

/-- The host expression evaluator on the fragment the embedded templates
exercise: a bare name, resolved locals-first then in the caller-supplied
globals (the generated `_render` runs with the render scope as its globals),
raising a name error when unbound. -/
def evalExpr (g : Env) (loc : Env) (src : String) : Except RErr Value :=
  let name := pyStrip src
  match lookupEnv loc name with
  | some v => .ok v
  | none =>
    match lookupEnv g name with
    | some v => .ok v
    | none => .error (.nameErr name)

/-- Python truthiness on the modelled values. -/
def truthy : Value → Bool
  | .bool b => b
  | .int n => n != 0
  | .str s => !s.data.isEmpty
  | .list l => !l.isEmpty

/-- Python `repr` on the modelled values (used by `str` on lists). -/
def pyRepr : Value → String
  | .str s => "'" ++ s ++ "'"
  | .int n => toString n
  | .bool true => "True"
  | .bool false => "False"
  | .list es => "[" ++ String.intercalate ", " (es.attach.map fun e => pyRepr e.1) ++ "]"
decreasing_by
  have h := List.sizeOf_lt_of_mem e.2
  simp_wf
  omega

/-- Python `str` conversion, applied by the generated
`out.append(str(...))`. -/
def pyStr : Value → String
  | .str s => s
  | .int n => toString n
  | .bool true => "True"
  | .bool false => "False"
  | .list es => "[" ++ String.intercalate ", " (es.map pyRepr) ++ "]"

/-- Whether `pat` is a prefix of `l`. -/
def matchesAt : List Char → List Char → Bool
  | [], _ => true
  | _ :: _, [] => false
  | p :: ps, c :: cs => p = c && matchesAt ps cs

/-- Index of the first occurrence of the (non-empty) pattern `pat` in `l`,
the host's substring search. -/
def findSub (pat : List Char) : List Char → Option Nat
  | [] => none
  | c :: rest =>
    if matchesAt pat (c :: rest) then some 0 else (findSub pat rest).map (· + 1)

/-- Host parsing of the emitted `for <target> in <iterable>:` statement
header (simple identifier targets, as the templates use). -/
def parseFor (pycmd : String) : Option (String × String) :=
  match pycmd.data with
  | 'f' :: 'o' :: 'r' :: ' ' :: rest =>
    match findSub [' ', 'i', 'n', ' '] rest with
    | none => none
    | some i =>
      some (String.mk (stripChars (rest.take i)),
        String.mk (stripChars (rest.drop (i + 4))))
  | _ => none

/-- Host parsing of a raw directive statement in the modelled fragment: a
simple assignment `name = expr`. -/
def splitAssign (stmt : String) : Option (String × String) :=
  match findSub ['='] stmt.data with
  | none => none
  | some i =>
    some (String.mk (stripChars (stmt.data.take i)),
      String.mk (stripChars (stmt.data.drop (i + 1))))

/-- Renderer state: the function-local bindings of the generated `_render`
and its output buffer `out`. -/
structure RState where
  locals : Env
  out : List String

def pushOut (st : RState) (s : String) : RState :=
  ⟨st.locals, st.out ++ [s]⟩

def setLocal (st : RState) (x : String) (v : Value) : RState :=
  ⟨setVar st.locals x v, st.out⟩

/-- A control position of the generated `_render`: an instruction sequence, a
branch chain of an `if`/`elif`/`else` construct, or the remaining iterations
of a `for` statement. -/
inductive Control where
  | seq (is : List Instr)
  | branch (bs : List (Option String × List Instr))
  | loop (x : String) (body : List Instr) (vs : List Value)

/-- Bounded execution of the generated `_render` body.  This models the host
semantics of the code `compile_template` emits: sequencing, `if`/`elif`/`else`
selecting the first branch whose condition is truthy, `for` binding the loop
variable as an ordinary function local once per element in order, expression
spans appended via `str`, and raw directives executed as assignments.  `fuel`
only bounds the number of steps; it is not part of the program semantics. -/
def run (g : Env) : Nat → Control → RState → Except RErr RState
  | 0, _, _ => .error .outOfFuel
  | _ + 1, .seq [], st => .ok st
  | fuel + 1, .seq (Instr.lit s :: is), st => run g fuel (.seq is) (pushOut st s)
  | fuel + 1, .seq (Instr.expr src :: is), st =>
    match evalExpr g st.locals src with
    | .error e => .error e
    | .ok v => run g fuel (.seq is) (pushOut st (pyStr v))
  | fuel + 1, .seq (Instr.raw stmt :: is), st =>
    match splitAssign stmt with
    | none => .error .unsupportedStmt
    | some (x, rhs) =>
      match evalExpr g st.locals rhs with
      | .error e => .error e
      | .ok v => run g fuel (.seq is) (setLocal st x v)
  | fuel + 1, .seq (Instr.ifI bs :: is), st =>
    match run g fuel (.branch bs) st with
    | .error e => .error e
    | .ok st' => run g fuel (.seq is) st'
  | fuel + 1, .seq (Instr.forI hdr body :: is), st =>
    match parseFor hdr with
    | none => .error .badForHeader
    | some (x, itE) =>
      match evalExpr g st.locals itE with
      | .error e => .error e
      | .ok (Value.list vs) =>
        match run g fuel (.loop x body vs) st with
        | .error e => .error e
        | .ok st' => run g fuel (.seq is) st'
      | .ok _ => .error .notIterable
  | _ + 1, .branch [], st => .ok st
  | fuel + 1, .branch ((none, body) :: _), st => run g fuel (.seq body) st
  | fuel + 1, .branch ((some c, body) :: rest), st =>
    match evalExpr g st.locals c with
    | .error e => .error e
    | .ok v =>
      if truthy v then run g fuel (.seq body) st else run g fuel (.branch rest) st
  | _ + 1, .loop _ _ [], st => .ok st
  | fuel + 1, .loop x body (v :: vs), st =>
    match run g fuel (.seq body) (setLocal st x v) with
    | .error e => .error e
    | .ok st' => run g fuel (.loop x body vs) st'

/-- The renderer: what one call of the `wrapper` returned by
`compile_template` does with a scope — run the compiled program from a fresh
local environment and a fresh output buffer and join the buffer. -/
def render (p : List Instr) (g : Env) (fuel : Nat) : Except RErr String :=
  match run g fuel (.seq p) ⟨[], []⟩ with
  | .error e => .error e
  | .ok st => .ok (String.join st.out)

/-- Errors of a compile-then-render round trip. -/
inductive TError where
  | compileE (e : CompileError)
  | renderE (e : RErr)

/-- Compile a template and render it with a scope, the end-to-end pipeline of
`compile_template(template_str)(**scope)`. -/
def renderTemplate (lines : List String) (g : Env) (fuel : Nat) :
    Except TError String :=
  match compile_template lines with
  | .error e => .error (.compileE e)
  | .ok p =>
    match render p g fuel with
    | .error e => .error (.renderE e)
    | .ok s => .ok s

/-- Unbounded big-step execution: some fuel suffices. -/
def Runs (g : Env) (t : Control) (st st' : RState) : Prop :=
  ∃ fuel, run g fuel t st = .ok st'

end BotDash

namespace BotDash

/-- The condition of a branch evaluates successfully and is falsy. -/
def condFalseB (g : Env) (st : RState) (c : String) : Bool :=
  match evalExpr g st.locals c with
  | .ok v => !(truthy v)
  | .error _ => false

/-- The branch is taken: an `else` branch, or a condition that evaluates
successfully to a truthy value. -/
def branchTakenB (g : Env) (st : RState) (bc : Option String) : Bool :=
  match bc with
  | none => true
  | some c =>
    match evalExpr g st.locals c with
    | .ok v => truthy v
    | .error _ => false

/-- The loop semantics in the spec's words: for each produced element, in
order, bind the loop variable to that element and execute the loop body once,
threading the state. -/
inductive IterRuns (g : Env) (x : String) (body : List Instr) :
    List Value → RState → RState → Prop where
  | nil (st : RState) : IterRuns g x body [] st st
  | cons (v : Value) (vs : List Value) (st st1 st2 : RState) :
      Runs g (.seq body) (setLocal st x v) st1 →
      IterRuns g x body vs st1 st2 →
      IterRuns g x body (v :: vs) st st2

/-- Whether a line's characters contain an expression-span start marker. -/
def containsPair : List Char → Bool
  | c1 :: c2 :: rest => (c1 = '\x7b' && c2 = '\x7b') || containsPair (c2 :: rest)
  | _ => false

/-- Whether a compilation error is a template syntax error carrying a
1-based source line number. -/
def carriesLineNo : CompileError → Bool
  | .templateErr _ _ => true
  | _ => false

/-- Whether a compilation error is a template syntax error naming the given
line number. -/
def namesLine (n : Nat) : CompileError → Bool
  | .templateErr m _ => m = n
  | _ => false

theorem run_mono (g : Env) :
    ∀ fuel fuel' t st st', fuel ≤ fuel' →
      run g fuel t st = .ok st' → run g fuel' t st = .ok st' := by
  intro fuel
  induction fuel with
  | zero => intro fuel' t st st' _ h; simp [run] at h
  | succ k ih =>
    intro fuel' t st st' hle h
    match fuel', hle with
    | k' + 1, hle =>
      have hk : k ≤ k' := Nat.le_of_succ_le_succ hle
      match t with
      | .seq [] => simpa [run] using h
      | .seq (Instr.lit s :: is) =>
        simp only [run] at h ⊢
        exact ih k' _ _ _ hk h
      | .seq (Instr.expr src :: is) =>
        simp only [run] at h ⊢
        cases hE : evalExpr g st.locals src with
        | error e => simp [hE] at h
        | ok v =>
          simp only [hE] at h ⊢
          exact ih k' _ _ _ hk h
      | .seq (Instr.raw stmt :: is) =>
        simp only [run] at h ⊢
        cases hA : splitAssign stmt with
        | none => simp [hA] at h
        | some p =>
          simp only [hA] at h ⊢
          cases hE : evalExpr g st.locals p.2 with
          | error e => simp [hE] at h
          | ok v =>
            simp only [hE] at h ⊢
            exact ih k' _ _ _ hk h
      | .seq (Instr.ifI bs :: is) =>
        simp only [run] at h ⊢
        cases hB : run g k (.branch bs) st with
        | error e => simp [hB] at h
        | ok st1 =>
          simp only [hB] at h
          rw [ih k' _ _ _ hk hB]
          exact ih k' _ _ _ hk h
      | .seq (Instr.forI hdr body :: is) =>
        simp only [run] at h ⊢
        cases hP : parseFor hdr with
        | none => simp [hP] at h
        | some p =>
          simp only [hP] at h ⊢
          cases hE : evalExpr g st.locals p.2 with
          | error e => simp [hE] at h
          | ok v =>
            cases v with
            | list vs =>
              simp only [hE] at h ⊢
              cases hL : run g k (.loop p.1 body vs) st with
              | error e => simp [hL] at h
              | ok st1 =>
                simp only [hL] at h
                rw [ih k' _ _ _ hk hL]
                exact ih k' _ _ _ hk h
            | str s => simp [hE] at h
            | int n => simp [hE] at h
            | bool b => simp [hE] at h
      | .branch [] => simpa [run] using h
      | .branch ((none, body) :: rest) =>
        simp only [run] at h ⊢
        exact ih k' _ _ _ hk h
      | .branch ((some c, body) :: rest) =>
        simp only [run] at h ⊢
        cases hE : evalExpr g st.locals c with
        | error e => simp [hE] at h
        | ok v =>
          simp only [hE] at h ⊢
          cases hv : truthy v with
          | true => simp only [hv, if_pos] at h ⊢; exact ih k' _ _ _ hk h
          | false => simp only [hv, if_neg] at h ⊢; exact ih k' _ _ _ hk h
      | .loop x body [] => simpa [run] using h
      | .loop x body (v :: vs) =>
        simp only [run] at h ⊢
        cases hB : run g k (.seq body) (setLocal st x v) with
        | error e => simp [hB] at h
        | ok st1 =>
          simp only [hB] at h
          rw [ih k' _ _ _ hk hB]
          exact ih k' _ _ _ hk h

end BotDash

namespace BotDash

theorem isSome_lookup_setVar (env : Env) (x : String) (v : Value) (nm : String)
    (h : nm = x ∨ (lookupEnv env nm).isSome = true) :
    (lookupEnv (setVar env x v) nm).isSome = true := by
  induction env with
  | nil =>
    rcases h with h | h
    · subst h; simp [setVar, lookupEnv]
    · simp [lookupEnv] at h
  | cons e rest ih =>
    obtain ⟨a, b⟩ := e
    by_cases hax : a = x
    · subst hax
      by_cases hk : a = nm
      · subst hk; simp [setVar, lookupEnv]
      · simp only [setVar, if_pos rfl]
        rcases h with h | h
        · exact absurd h.symm hk
        · simpa [lookupEnv, hk] using h
    · simp only [setVar, if_neg hax]
      by_cases hk : a = nm
      · simp [lookupEnv, hk]
      · simp only [lookupEnv, if_neg hk]
        apply ih
        rcases h with h | h
        · exact Or.inl h
        · exact Or.inr (by simpa [lookupEnv, hk] using h)

theorem run_keeps_locals (g : Env) :
    ∀ fuel t st st', run g fuel t st = .ok st' →
      ∀ nm, (lookupEnv st.locals nm).isSome = true →
        (lookupEnv st'.locals nm).isSome = true := by
  intro fuel
  induction fuel with
  | zero => intro t st st' h; simp [run] at h
  | succ k ih =>
    intro t st st' h nm hnm
    match t with
    | .seq [] =>
      simp only [run, Except.ok.injEq] at h
      exact h ▸ hnm
    | .seq (Instr.lit s :: is) =>
      simp only [run] at h
      exact ih _ _ _ h nm hnm
    | .seq (Instr.expr src :: is) =>
      simp only [run] at h
      cases hE : evalExpr g st.locals src with
      | error e => simp [hE] at h
      | ok v =>
        simp only [hE] at h
        exact ih _ _ _ h nm hnm
    | .seq (Instr.raw stmt :: is) =>
      simp only [run] at h
      cases hA : splitAssign stmt with
      | none => simp [hA] at h
      | some p =>
        simp only [hA] at h
        cases hE : evalExpr g st.locals p.2 with
        | error e => simp [hE] at h
        | ok v =>
          simp only [hE] at h
          exact ih _ _ _ h nm (isSome_lookup_setVar _ _ _ _ (Or.inr hnm))
    | .seq (Instr.ifI bs :: is) =>
      simp only [run] at h
      cases hB : run g k (.branch bs) st with
      | error e => simp [hB] at h
      | ok st1 =>
        simp only [hB] at h
        exact ih _ _ _ h nm (ih _ _ _ hB nm hnm)
    | .seq (Instr.forI hdr body :: is) =>
      simp only [run] at h
      cases hP : parseFor hdr with
      | none => simp [hP] at h
      | some p =>
        simp only [hP] at h
        cases hE : evalExpr g st.locals p.2 with
        | error e => simp [hE] at h
        | ok v =>
          cases v with
          | list vs =>
            simp only [hE] at h
            cases hL : run g k (.loop p.1 body vs) st with
            | error e => simp [hL] at h
            | ok st1 =>
              simp only [hL] at h
              exact ih _ _ _ h nm (ih _ _ _ hL nm hnm)
          | str s => simp [hE] at h
          | int n => simp [hE] at h
          | bool b => simp [hE] at h
    | .branch [] =>
      simp only [run, Except.ok.injEq] at h
      exact h ▸ hnm
    | .branch ((none, body) :: rest) =>
      simp only [run] at h
      exact ih _ _ _ h nm hnm
    | .branch ((some c, body) :: rest) =>
      simp only [run] at h
      cases hE : evalExpr g st.locals c with
      | error e => simp [hE] at h
      | ok v =>
        simp only [hE] at h
        cases hv : truthy v with
        | true =>
          simp only [hv, if_pos] at h
          exact ih _ _ _ h nm hnm
        | false =>
          simp only [hv, if_neg] at h
          exact ih _ _ _ h nm hnm
    | .loop x body [] =>
      simp only [run, Except.ok.injEq] at h
      exact h ▸ hnm
    | .loop x body (v :: vs) =>
      simp only [run] at h
      cases hB : run g k (.seq body) (setLocal st x v) with
      | error e => simp [hB] at h
      | ok st1 =>
        simp only [hB] at h
        exact ih _ _ _ h nm
          (ih _ _ _ hB nm (isSome_lookup_setVar _ _ _ _ (Or.inr hnm)))

end BotDash

namespace BotDash

theorem branch_skip (g : Env) (st : RState) :
    ∀ (pre : List (String × List Instr)) (tail : List (Option String × List Instr))
      (fuel : Nat), pre.all (fun p => condFalseB g st p.1) = true →
      run g (pre.length + fuel)
          (.branch (pre.map (fun p => (some p.1, p.2)) ++ tail)) st =
        run g fuel (.branch tail) st := by
  intro pre
  induction pre with
  | nil => intro tail fuel _; simp
  | cons p pre' ih =>
    intro tail fuel hall
    simp only [List.all_cons, Bool.and_eq_true] at hall
    obtain ⟨hp, hall'⟩ := hall
    have hlen : (p :: pre').length + fuel = (pre'.length + fuel) + 1 := by
      simp [List.length_cons]; omega
    rw [hlen]
    obtain ⟨c, body⟩ := p
    simp only [List.map_cons, List.cons_append]
    cases hE : evalExpr g st.locals c with
    | error e => simp [condFalseB, hE] at hp
    | ok v =>
      have hv : truthy v = false := by
        simp [condFalseB, hE] at hp
        exact hp
      simp only [run, hE, hv, if_neg]
      exact ih tail fuel hall'
      
theorem branch_enter (g : Env) (st : RState) (bc : Option String)
    (bb : List Instr) (post : List (Option String × List Instr)) (fuel : Nat)
    (h : branchTakenB g st bc = true) :
    run g (fuel + 1) (.branch ((bc, bb) :: post)) st = run g fuel (.seq bb) st := by
  cases bc with
  | none => simp [run]
  | some c =>
    cases hE : evalExpr g st.locals c with
    | error e => simp [branchTakenB, hE] at h
    | ok v =>
      have hv : truthy v = true := by simpa [branchTakenB, hE] using h
      simp [run, hE, hv]

theorem branch_skip_rev (g : Env) (st : RState) :
    ∀ (pre : List (String × List Instr)) (tail : List (Option String × List Instr))
      (F : Nat) (r : RState), pre.all (fun p => condFalseB g st p.1) = true →
      run g F (.branch (pre.map (fun p => (some p.1, p.2)) ++ tail)) st = .ok r →
      ∃ F', run g F' (.branch tail) st = .ok r := by
  intro pre
  induction pre with
  | nil => intro tail F r _ h; exact ⟨F, by simpa using h⟩
  | cons p pre' ih =>
    intro tail F r hall h
    simp only [List.all_cons, Bool.and_eq_true] at hall
    obtain ⟨hp, hall'⟩ := hall
    match F with
    | 0 => simp [run] at h
    | k + 1 =>
      obtain ⟨c, body⟩ := p
      cases hE : evalExpr g st.locals c with
      | error e => simp [condFalseB, hE] at hp
      | ok v =>
        have hv : truthy v = false := by
          simp [condFalseB, hE] at hp
          exact hp
        simp only [List.map_cons, List.cons_append, run, hE, hv, if_neg] at h
        exact ih tail k r hall' h

end BotDash

namespace BotDash

theorem loop_to_iter (g : Env) (x : String) (body : List Instr) :
    ∀ (vs : List Value) (F : Nat) (st st' : RState),
      run g F (.loop x body vs) st = .ok st' → IterRuns g x body vs st st' := by
  intro vs
  induction vs with
  | nil =>
    intro F st st' h
    match F with
    | 0 => simp [run] at h
    | k + 1 =>
      simp only [run, Except.ok.injEq] at h
      exact h ▸ IterRuns.nil st
  | cons v vs' ih =>
    intro F st st' h
    match F with
    | 0 => simp [run] at h
    | k + 1 =>
      simp only [run] at h
      cases hB : run g k (.seq body) (setLocal st x v) with
      | error e => simp [hB] at h
      | ok st1 =>
        simp only [hB] at h
        exact IterRuns.cons v vs' st st1 st' ⟨k, hB⟩ (ih k st1 st' h)

theorem iter_to_loop (g : Env) (x : String) (body : List Instr)
    (vs : List Value) (st st' : RState) (h : IterRuns g x body vs st st') :
    Runs g (.loop x body vs) st st' := by
  induction h with
  | nil st => exact ⟨1, rfl⟩
  | cons v vs' st st1 st2 hbody _ ih =>
    obtain ⟨F1, h1⟩ := hbody
    obtain ⟨F2, h2⟩ := ih
    refine ⟨max F1 F2 + 1, ?_⟩
    have h1' := run_mono g F1 (max F1 F2) _ _ _ (Nat.le_max_left F1 F2) h1
    have h2' := run_mono g F2 (max F1 F2) _ _ _ (Nat.le_max_right F1 F2) h2
    simp only [run, h1', h2']

theorem seq_forI_iff (g : Env) (st st' : RState) (hdr x itE : String)
    (body : List Instr) (vs : List Value)
    (hparse : parseFor hdr = some (x, itE))
    (heval : evalExpr g st.locals itE = .ok (Value.list vs)) :
    Runs g (.seq [Instr.forI hdr body]) st st' ↔
      Runs g (.loop x body vs) st st' := by
  constructor
  · rintro ⟨F, h⟩
    match F with
    | 0 => simp [run] at h
    | k + 1 =>
      simp only [run, hparse, heval] at h
      cases hL : run g k (.loop x body vs) st with
      | error e => simp [hL] at h
      | ok st1 =>
        simp only [hL] at h
        match k, h with
        | m + 1, h =>
          simp only [run, Except.ok.injEq] at h
          exact ⟨m + 1, h ▸ hL⟩
  · rintro ⟨F, h⟩
    refine ⟨F + 2, ?_⟩
    have h' := run_mono g F (F + 1) _ _ _ (Nat.le_succ F) h
    simp only [run, hparse, heval, h']

end BotDash

namespace BotDash

theorem mk_data (s : String) : String.mk s.data = s := rfl

theorem scan_no_pair (lineNo : Nat) :
    ∀ (chars : List Char), containsPair chars = false →
      ∀ (acc : List Char) (emitted : List Instr),
        scanChars lineNo .text acc emitted chars =
          .ok (emitted ++ [Instr.lit (String.mk (acc ++ chars) ++ "\n")]) := by
  intro chars
  induction chars with
  | nil => intro _ acc emitted; simp [scanChars]
  | cons c tail ih =>
    intro hcp acc emitted
    cases tail with
    | nil => simp [scanChars]
    | cons c2 rest =>
      simp only [containsPair, Bool.or_eq_false_iff, Bool.and_eq_false_iff] at hcp
      obtain ⟨hpair, hrest⟩ := hcp
      have hne : ¬(c = '\x7b' ∧ c2 = '\x7b') := by
        rcases hpair with h | h
        · exact fun hc => by simp [hc.1] at h
        · exact fun hc => by simp [hc.2] at h
      rw [scanChars, if_neg hne, ih hrest (acc ++ [c]) emitted]
      simp

theorem compileLine_text (st : CState) (lineNo : Nat) (l : String)
    (hd : startsDollar l = false) (hp : containsPair l.data = false) :
    compileLine st lineNo l = .ok ⟨st.cur ++ [Instr.lit (l ++ "\n")], st.stack⟩ := by
  rw [compileLine, if_neg (by simp [hd]), scan_no_pair lineNo l.data hp [] []]
  simp [mk_data]

theorem compileGo_text_lines :
    ∀ (lines : List String) (n : Nat) (cur : List Instr),
      (∀ l ∈ lines, startsDollar l = false ∧ containsPair l.data = false) →
      compileGo ⟨cur, []⟩ n lines =
        .ok (cur ++ lines.map (fun l => Instr.lit (l ++ "\n"))) := by
  intro lines
  induction lines with
  | nil => intro n cur _; simp [compileGo]
  | cons l ls ih =>
    intro n cur hall
    have hl := hall l (List.mem_cons_self l ls)
    have hls : ∀ l' ∈ ls, startsDollar l' = false ∧ containsPair l'.data = false :=
      fun l' hm => hall l' (List.mem_cons_of_mem l hm)
    rw [compileGo, compileLine_text ⟨cur, []⟩ n l hl.1 hl.2]
    show compileGo ⟨cur ++ [Instr.lit (l ++ "\n")], []⟩ (n + 1) ls = _
    rw [ih (n + 1) (cur ++ [Instr.lit (l ++ "\n")]) hls]
    simp

theorem run_lits (g : Env) :
    ∀ (ls : List String) (fuel : Nat) (st : RState), ls.length + 1 ≤ fuel →
      run g fuel (.seq (ls.map Instr.lit)) st = .ok ⟨st.locals, st.out ++ ls⟩ := by
  intro ls
  induction ls with
  | nil =>
    intro fuel st hf
    match fuel, hf with
    | k + 1, _ => simp [run]
  | cons l ls' ih =>
    intro fuel st hf
    match fuel, hf with
    | k + 1, hf =>
      have : ls'.length + 1 ≤ k := by simpa [List.length_cons] using hf
      rw [List.map_cons, run, ih k (pushOut st l) this]
      simp [pushOut]

end BotDash

namespace BotDash

/-- C1: compiling the six-line example template and rendering it with the
scope name = "Bot", show_list = true, nums = [1, 2, 3] produces exactly
"Hello Bot!\n- 1\n- 2\n- 3\n", and rendering the same compiled template with
show_list = false (other bindings unchanged) produces exactly
"Hello Bot!\n". -/
theorem c1_example_end_to_end :
    renderTemplate ["Hello \x7b\x7bname\x7d\x7d!", "$if show_list",
        "$for n in nums", "- \x7b\x7bn\x7d\x7d", "$endfor", "$endif"]
      [("name", Value.str "Bot"), ("show_list", Value.bool true),
        ("nums", Value.list [Value.int 1, Value.int 2, Value.int 3])] 100 =
      .ok "Hello Bot!\n- 1\n- 2\n- 3\n"
    ∧ renderTemplate ["Hello \x7b\x7bname\x7d\x7d!", "$if show_list",
        "$for n in nums", "- \x7b\x7bn\x7d\x7d", "$endfor", "$endif"]
      [("name", Value.str "Bot"), ("show_list", Value.bool false),
        ("nums", Value.list [Value.int 1, Value.int 2, Value.int 3])] 100 =
      .ok "Hello Bot!\n" :=
  ⟨rfl, rfl⟩

/-- C2 counterexample: the loop-bound variable does leak past the endfor.
The loop body is the literal line x, so the generated function has a
non-empty loop suite (host compilation of the emitted source succeeds); the
loop binds the variable as a host function local, so after the loop over
nums = [1, 2] the expression n after the endfor still evaluates — rendering
produces "x\nx\n2\n", the trailing 2 being the leaked final element — while
the same expression without the preceding loop fails with a name error,
showing the binding came from the loop and not from the enclosing scope. -/
theorem c2_counterexample :
    renderTemplate ["$for n in nums", "x", "$endfor", "\x7b\x7bn\x7d\x7d"]
      [("nums", Value.list [Value.int 1, Value.int 2])] 100 = .ok "x\nx\n2\n"
    ∧ renderTemplate ["\x7b\x7bn\x7d\x7d"]
      [("nums", Value.list [Value.int 1, Value.int 2])] 100 =
      .error (TError.renderE (RErr.nameErr "n")) :=
  ⟨rfl, rfl⟩

/-- C2 amended: the loop-bound variable introduced by the loop header remains
visible after the loop: whenever a loop over a non-empty element list
completes, the loop variable is still bound in the render-time local
environment (to the value of the final iteration unless the body rebinds it),
so directives and expressions after the endfor can see it. -/
theorem c2_amended_loop_var_persists (g : Env) (x : String)
    (body : List Instr) (v : Value) (vs : List Value) (st st' : RState)
    (h : Runs g (.loop x body (v :: vs)) st st') :
    (lookupEnv st'.locals x).isSome = true := by
  obtain ⟨F, hF⟩ := h
  match F with
  | 0 => simp [run] at hF
  | k + 1 =>
    simp only [run] at hF
    cases hB : run g k (.seq body) (setLocal st x v) with
    | error e => simp [hB] at hF
    | ok st1 =>
      simp only [hB] at hF
      have h1 : (lookupEnv st1.locals x).isSome = true :=
        run_keeps_locals g k _ _ _ hB x
          (isSome_lookup_setVar st.locals x v x (Or.inl rfl))
      exact run_keeps_locals g k _ _ _ hF x h1

theorem c2_amended_witness :
    Runs [] (.loop "n" [Instr.lit "x\n"] [Value.int 1]) ⟨[], []⟩
      ⟨[("n", Value.int 1)], ["x\n"]⟩
    ∧ (lookupEnv ([("n", Value.int 1)] : Env) "n").isSome = true :=
  have h : Runs [] (.loop "n" [Instr.lit "x\n"] [Value.int 1]) ⟨[], []⟩
      ⟨[("n", Value.int 1)], ["x\n"]⟩ := ⟨3, rfl⟩
  ⟨h, c2_amended_loop_var_persists [] "n" [Instr.lit "x\n"] (Value.int 1) []
    ⟨[], []⟩ ⟨[("n", Value.int 1)], ["x\n"]⟩ h⟩

/-- C3 counterexample: compiling a template whose only line is the directive
else, with no enclosing open block at all, fails with the host index error
raised by reading the top of the empty block stack — not with a template
syntax error naming line 1. -/
theorem c3_counterexample :
    compile_template ["$else"] = .error CompileError.indexErr
    ∧ namesLine 1 CompileError.indexErr = false :=
  ⟨rfl, rfl⟩

/-- C3 amended: when an elif or else directive is compiled while some block
is open but the innermost open block is a for block, compilation fails with a
template syntax error naming that exact 1-based line (Incorrectly nested);
when no block is open at all, the failure is instead the host index error of
the counterexample, carrying no line number. -/
theorem c3_amended_else_under_for (st : CState) (n : Nat) (hdr : String)
    (saved : List Instr) (fs : List Frame) (pycmd : String)
    (hstack : st.stack = Frame.forFrame hdr saved :: fs)
    (hkw : firstToken pycmd = "elif" ∨ firstToken pycmd = "else") :
    compileDirective st n pycmd =
      .error (.templateErr n ("Incorrectly nested '" ++ firstToken pycmd ++ "'")) := by
  rcases hkw with hkw | hkw <;> simp [compileDirective, hkw, hstack]

theorem c3_amended_witness :
    compileDirective ⟨[], [Frame.forFrame "for x in xs" []]⟩ 3 "else" =
      .error (.templateErr 3 ("Incorrectly nested '" ++ firstToken "else" ++ "'")) :=
  c3_amended_else_under_for ⟨[], [Frame.forFrame "for x in xs" []]⟩ 3
    "for x in xs" [] [] "else" rfl (Or.inr rfl)

/-- C4 counterexample: a template with an unclosed if block fails with the
end-of-input error Unclosed if, which carries the unclosed block kind but no
1-based source line number, contradicting the claim that every compilation
error carries one. -/
theorem c4_counterexample :
    compile_template ["$if x"] = .error (CompileError.unclosedErr "if")
    ∧ carriesLineNo (CompileError.unclosedErr "if") = false :=
  ⟨rfl, rfl⟩

/-- C4 amended: compilation stops at the first error; the per-line syntax
errors (including an unterminated expression span) are template syntax errors
carrying the 1-based line number and a specific reason; but the unclosed
block detected at end of input yields an error naming only the block kind,
with no line number, and a bare endif, endfor, elif or else processed with an
empty block stack yields the host index error, which is not a template syntax
error at all. -/
theorem c4_amended_error_taxonomy :
    (∀ (st : CState) (n : Nat) (l : String) (ls : List String) (e : CompileError),
      compileLine st n l = .error e → compileGo st n (l :: ls) = .error e)
    ∧ (∀ (st : CState) (n : Nat) (f : Frame) (fs : List Frame),
        st.stack = f :: fs →
        compileGo st n [] = .error (.unclosedErr (frameKind f)))
    ∧ (∀ (st : CState) (n : Nat), st.stack = [] →
        compileDirective st n "endif" = .error .indexErr
        ∧ compileDirective st n "endfor" = .error .indexErr
        ∧ compileDirective st n "else" = .error .indexErr)
    ∧ (∀ (st : CState) (n : Nat),
        compileLine st n "\x7b\x7bx" =
          .error (.templateErr n "Couldn't find matching \x7d")) := by
  refine ⟨?_, ?_, ?_, ?_⟩
  · intro st n l ls e h
    simp [compileGo, h]
  · intro st n f fs hstack
    simp [compileGo, hstack]
  · intro st n hstack
    refine ⟨?_, ?_, ?_⟩ <;> (simp only [compileDirective, hstack]; rfl)
  · intro st n
    rfl

theorem c4_amended_witness :
    compileGo ⟨[], []⟩ 1 ["$else", "x"] = .error CompileError.indexErr
    ∧ compileGo ⟨[], [Frame.ifFrame [] (some "x") []]⟩ 2 [] =
        .error (CompileError.unclosedErr "if")
    ∧ compileDirective ⟨[], []⟩ 3 "endif" = .error CompileError.indexErr
    ∧ compileLine ⟨[], []⟩ 4 "\x7b\x7bx" =
        .error (CompileError.templateErr 4 "Couldn't find matching \x7d") :=
  ⟨c4_amended_error_taxonomy.1 ⟨[], []⟩ 1 "$else" ["x"] CompileError.indexErr rfl,
    c4_amended_error_taxonomy.2.1 ⟨[], [Frame.ifFrame [] (some "x") []]⟩ 2
      (Frame.ifFrame [] (some "x") []) [] rfl,
    (c4_amended_error_taxonomy.2.2.1 ⟨[], []⟩ 3 rfl).1,
    c4_amended_error_taxonomy.2.2.2 ⟨[], []⟩ 4⟩

end BotDash

namespace BotDash

/-- C5: for a validly nested branch construct whose earlier conditions all
evaluate successfully to falsy values and whose next branch is taken (a
truthy condition, or an else branch, implicitly true), rendering the
construct is exactly rendering that branch's body: the equivalence holds for
every list of later branches, so the conditions and bodies of later branches
are never evaluated; and when every condition evaluates falsy and no else
branch is present, no branch body executes and rendering completes without
error, leaving the state unchanged. -/
theorem c5_first_true_branch (g : Env) (st r : RState)
    (pre : List (String × List Instr)) (bc : Option String) (bb : List Instr)
    (post : List (Option String × List Instr))
    (hpre : pre.all (fun p => condFalseB g st p.1) = true)
    (htaken : branchTakenB g st bc = true) :
    (Runs g (.branch (pre.map (fun p => (some p.1, p.2)) ++ (bc, bb) :: post))
        st r ↔ Runs g (.seq bb) st r)
    ∧ ∀ bs : List (String × List Instr),
        bs.all (fun p => condFalseB g st p.1) = true →
        Runs g (.branch (bs.map (fun p => (some p.1, p.2)))) st st := by
  constructor
  · constructor
    · rintro ⟨F, hF⟩
      obtain ⟨F', hF'⟩ := branch_skip_rev g st pre ((bc, bb) :: post) F r hpre hF
      match F' with
      | 0 => simp [run] at hF'
      | k + 1 =>
        rw [branch_enter g st bc bb post k htaken] at hF'
        exact ⟨k, hF'⟩
    · rintro ⟨F, hF⟩
      refine ⟨pre.length + (F + 1), ?_⟩
      rw [branch_skip g st pre ((bc, bb) :: post) (F + 1) hpre,
        branch_enter g st bc bb post F htaken]
      exact hF
  · intro bs hbs
    refine ⟨bs.length + 1, ?_⟩
    have h := branch_skip g st bs [] 1 hbs
    simp only [List.append_nil] at h
    rw [h]
    rfl

theorem c5_first_true_branch_witness :
    ((Runs [("flag", Value.bool false), ("go", Value.bool true)]
        (.branch ([("flag", [Instr.lit "A"])].map (fun p => (some p.1, p.2)) ++
          (some "go", [Instr.lit "B"]) :: [(none, [Instr.lit "C"])]))
        ⟨[], []⟩ ⟨[], ["B"]⟩ ↔
      Runs [("flag", Value.bool false), ("go", Value.bool true)]
        (.seq [Instr.lit "B"]) ⟨[], []⟩ ⟨[], ["B"]⟩)
    ∧ ∀ bs : List (String × List Instr),
        bs.all (fun p =>
          condFalseB [("flag", Value.bool false), ("go", Value.bool true)]
            ⟨[], []⟩ p.1) = true →
        Runs [("flag", Value.bool false), ("go", Value.bool true)]
          (.branch (bs.map (fun p => (some p.1, p.2)))) ⟨[], []⟩ ⟨[], []⟩) :=
  c5_first_true_branch [("flag", Value.bool false), ("go", Value.bool true)]
    ⟨[], []⟩ ⟨[], ["B"]⟩ [("flag", [Instr.lit "A"])] (some "go")
    [Instr.lit "B"] [(none, [Instr.lit "C"])] rfl rfl

/-- C6: for a for block whose header parses as a binding clause and whose
iterable expression evaluates to a list of elements, rendering the block is
exactly iterating the body once per element, in order, each iteration binding
the loop variable to its element (the IterRuns relation, written from the
spec); in particular an empty element list executes the body zero times and
rendering completes without error, leaving the state unchanged. -/
theorem c6_for_iterates (g : Env) (st st' : RState) (hdr x itE : String)
    (body : List Instr) (vs : List Value)
    (hparse : parseFor hdr = some (x, itE))
    (heval : evalExpr g st.locals itE = .ok (Value.list vs)) :
    (Runs g (.seq [Instr.forI hdr body]) st st' ↔ IterRuns g x body vs st st')
    ∧ (vs = [] → Runs g (.seq [Instr.forI hdr body]) st st) := by
  have hiff : Runs g (.seq [Instr.forI hdr body]) st st' ↔
      IterRuns g x body vs st st' := by
    rw [seq_forI_iff g st st' hdr x itE body vs hparse heval]
    constructor
    · rintro ⟨F, h⟩
      exact loop_to_iter g x body vs F st st' h
    · exact iter_to_loop g x body vs st st'
  refine ⟨hiff, ?_⟩
  intro hvs
  subst hvs
  rw [seq_forI_iff g st st hdr x itE body [] hparse heval]
  exact ⟨1, rfl⟩

theorem c6_for_iterates_witness :
    ((Runs [("nums", Value.list [Value.int 7])]
        (.seq [Instr.forI "for n in nums" [Instr.expr "n"]]) ⟨[], []⟩
        ⟨[("n", Value.int 7)], ["7"]⟩ ↔
      IterRuns [("nums", Value.list [Value.int 7])] "n" [Instr.expr "n"]
        [Value.int 7] ⟨[], []⟩ ⟨[("n", Value.int 7)], ["7"]⟩)
    ∧ ([Value.int 7] = [] →
        Runs [("nums", Value.list [Value.int 7])]
          (.seq [Instr.forI "for n in nums" [Instr.expr "n"]]) ⟨[], []⟩
          ⟨[], []⟩)) :=
  c6_for_iterates [("nums", Value.list [Value.int 7])] ⟨[], []⟩
    ⟨[("n", Value.int 7)], ["7"]⟩ "for n in nums" "n" "nums" [Instr.expr "n"]
    [Value.int 7] rfl rfl

/-- C7: for an endif or endfor directive line compiled with a non-empty block
stack, compilation fails with a template syntax error naming that exact line
when the popped block kind does not match the directive, and, when it does
match, still fails naming that line when the directive body contains any text
beyond the bare keyword; in particular compiling the two-line template
"$for x in xs" then "$endif" fails with a syntax error naming line 2. -/
theorem c7_end_directive_checks (st : CState) (n : Nat) (f : Frame)
    (fs : List Frame) (pycmd : String) (hstack : st.stack = f :: fs) :
    (firstToken pycmd = "endif" → frameKind f = "for" →
      compileDirective st n pycmd =
        .error (.templateErr n ("Expected endfor, got " ++ pycmd)))
    ∧ (firstToken pycmd = "endfor" → frameKind f = "if" →
      compileDirective st n pycmd =
        .error (.templateErr n ("Expected endif, got " ++ pycmd)))
    ∧ (firstToken pycmd = "endif" → frameKind f = "if" → pycmd ≠ "endif" →
      compileDirective st n pycmd =
        .error (.templateErr n "Unexpected text after endif"))
    ∧ (firstToken pycmd = "endfor" → frameKind f = "for" → pycmd ≠ "endfor" →
      compileDirective st n pycmd =
        .error (.templateErr n "Unexpected text after endfor"))
    ∧ compile_template ["$for x in xs", "$endif"] =
        .error (.templateErr 2 "Expected endfor, got endif") := by
  have hd1 : ("endif" : String).drop 3 = "if" := rfl
  have hd2 : ("endfor" : String).drop 3 = "for" := rfl
  refine ⟨?_, ?_, ?_, ?_, rfl⟩
  · intro hkw hf
    simp [compileDirective, hkw, hstack, hf, hd1]
  · intro hkw hf
    simp [compileDirective, hkw, hstack, hf, hd2]
  · intro hkw hf hne
    simp [compileDirective, hkw, hstack, hf, hd1, hne]
  · intro hkw hf hne
    simp [compileDirective, hkw, hstack, hf, hd2, hne]

theorem c7_end_directive_checks_witness :
    ((firstToken "endif" = "endif" →
      frameKind (Frame.forFrame "for x in xs" []) = "for" →
      compileDirective ⟨[], [Frame.forFrame "for x in xs" []]⟩ 7 "endif" =
        .error (.templateErr 7 ("Expected endfor, got " ++ "endif")))
    ∧ (firstToken "endif" = "endfor" →
      frameKind (Frame.forFrame "for x in xs" []) = "if" →
      compileDirective ⟨[], [Frame.forFrame "for x in xs" []]⟩ 7 "endif" =
        .error (.templateErr 7 ("Expected endif, got " ++ "endif")))
    ∧ (firstToken "endif" = "endif" →
      frameKind (Frame.forFrame "for x in xs" []) = "if" → "endif" ≠ "endif" →
      compileDirective ⟨[], [Frame.forFrame "for x in xs" []]⟩ 7 "endif" =
        .error (.templateErr 7 "Unexpected text after endif"))
    ∧ (firstToken "endif" = "endfor" →
      frameKind (Frame.forFrame "for x in xs" []) = "for" → "endif" ≠ "endfor" →
      compileDirective ⟨[], [Frame.forFrame "for x in xs" []]⟩ 7 "endif" =
        .error (.templateErr 7 "Unexpected text after endfor"))
    ∧ compile_template ["$for x in xs", "$endif"] =
        .error (.templateErr 2 "Expected endfor, got endif")) :=
  c7_end_directive_checks ⟨[], [Frame.forFrame "for x in xs" []]⟩ 7
    (Frame.forFrame "for x in xs" []) [] "endif" rfl

/-- C8: a template with zero directive lines and zero expression spans
compiles, and rendering it with any scope reproduces the source text
unchanged except for newline normalization: the output is exactly each
source line followed by one newline. -/
theorem c8_literal_reproduction (lines : List String) (g : Env) (fuel : Nat)
    (h : ∀ l ∈ lines, startsDollar l = false ∧ containsPair l.data = false)
    (hfuel : lines.length + 1 ≤ fuel) :
    renderTemplate lines g fuel =
      .ok (String.join (lines.map (fun l => l ++ "\n"))) := by
  have hc : compile_template lines =
      .ok (lines.map (fun l => Instr.lit (l ++ "\n"))) := by
    have := compileGo_text_lines lines 1 [] h
    simpa [compile_template] using this
  have hmm : lines.map (fun l => Instr.lit (l ++ "\n")) =
      (lines.map (fun l => l ++ "\n")).map Instr.lit := by
    simp [List.map_map]
  have hr : run g fuel (.seq ((lines.map (fun l => l ++ "\n")).map Instr.lit))
      ⟨[], []⟩ = .ok ⟨[], [] ++ lines.map (fun l => l ++ "\n")⟩ :=
    run_lits g (lines.map (fun l => l ++ "\n")) fuel ⟨[], []⟩
      (by simpa [List.length_map] using hfuel)
  simp only [renderTemplate, hc]
  rw [render, hmm, hr]
  simp

theorem c8_literal_reproduction_witness :
    renderTemplate ["ab", "cd"] [("x", Value.int 1)] 3 =
      .ok (String.join (["ab", "cd"].map (fun l => l ++ "\n"))) :=
  c8_literal_reproduction ["ab", "cd"] [("x", Value.int 1)] 3
    (by intro l hl; fin_cases hl <;> exact ⟨rfl, rfl⟩) (by simp)

/-- C9: a compiled program is an immutable value owned by its holder:
rendering it with a scope always starts from a fresh local environment and a
fresh output buffer (mirroring the fresh globals dictionary each wrapper call
receives), so rendering the same compiled program twice with two different
scopes gives, for each scope, exactly the result of a fresh compilation and
single render with that scope — neither render observes or alters any state
left by the other. -/
theorem c9_renders_independent (t : List String) (p : List Instr)
    (s1 s2 : Env) (fuel1 fuel2 : Nat) (h : compile_template t = .ok p) :
    (renderTemplate t s1 fuel1 =
      match render p s1 fuel1 with
      | .error e => .error (TError.renderE e)
      | .ok s => .ok s)
    ∧ (renderTemplate t s2 fuel2 =
      match render p s2 fuel2 with
      | .error e => .error (TError.renderE e)
      | .ok s => .ok s) := by
  constructor <;> simp [renderTemplate, h]

theorem c9_renders_independent_witness :
    ((renderTemplate ["hi"] [] 2 =
      match render [Instr.lit "hi\n"] [] 2 with
      | .error e => .error (TError.renderE e)
      | .ok s => .ok s)
    ∧ (renderTemplate ["hi"] [("x", Value.int 1)] 2 =
      match render [Instr.lit "hi\n"] [("x", Value.int 1)] 2 with
      | .error e => .error (TError.renderE e)
      | .ok s => .ok s)) :=
  c9_renders_independent ["hi"] [Instr.lit "hi\n"] [] [("x", Value.int 1)]
    2 2 rfl

end BotDash
